import Mathlib

/-!
Shallow embedding of the `kobzar-ccs` repository (Rust) for checking its
natural-language specification.

Modelling conventions, fixed once for the whole file:

* `ThreadKey`, `ChannelKey`, `ProcessKey` and `GraphNodeKey` are `u32` in the
  source and are modelled as `Nat`; the source only ever increments them from
  0/1, never wraps, so overflow is out of reach for every state we consider.
* `BTreeMap<u32, V>` is modelled as an association list `List (Nat × V)` kept
  sorted by strictly increasing keys by the operations themselves, exactly the
  observable behaviour of a BTreeMap (ordered iteration, replace-on-insert).
  `BTreeSet<u32>` is likewise a strictly increasing `List Nat`.
* `GraphNode` in the source is a reference-counted node whose adjacency map is
  mutated through a shared `Rc` alias (`&mut *(self as *const _ as *mut _)`),
  so every clone of the `Rc` observes every mutation.  The whole node pool is
  therefore modelled as one flat adjacency map `Adjacency` from node id to the
  sorted list of successor ids; the `Rc<GraphNode>` handles of the source are
  node ids here.
* Functions that can `panic!` or `unwrap()` a `None`/`Err` in Rust return
  `Option` (with `none` = panic) or a dedicated result inductive carrying the
  state at the moment of the panic.
-/

namespace Kobzar

/-- Membership in a `BTreeSet<u32>` modelled as a list. -/
def smem (x : Nat) : List Nat → Bool
  | [] => false
  | y :: ys => if x = y then true else smem x ys

/-- `BTreeSet::insert` for a sorted `List Nat`: keeps the list strictly
sorted, no duplicates. -/
def sinsert (x : Nat) : List Nat → List Nat
  | [] => [x]
  | y :: ys => if x < y then x :: y :: ys else if x = y then y :: ys else y :: sinsert x ys

/-- `BTreeSet::remove` for a sorted `List Nat` (removes the first, hence for a
sorted list the only, occurrence). -/
def serase (x : Nat) : List Nat → List Nat
  | [] => []
  | y :: ys => if x = y then ys else y :: serase x ys

/-- `BTreeMap<u32, V>` modelled as a sorted association list. -/
abbrev Smap (V : Type) : Type := List (Nat × V)

/-- `BTreeMap::get`. -/
def mfind {V : Type} (k : Nat) : Smap V → Option V
  | [] => none
  | (k', v) :: rest => if k = k' then some v else mfind k rest

/-- `BTreeMap::contains_key`. -/
def mcontains {V : Type} (k : Nat) (m : Smap V) : Bool :=
  (mfind k m).isSome

/-- `BTreeMap::insert` (replaces the value when the key is present). -/
def minsert {V : Type} (k : Nat) (v : V) : Smap V → Smap V
  | [] => [(k, v)]
  | (k', v') :: rest =>
    if k < k' then (k, v) :: (k', v') :: rest
    else if k = k' then (k, v) :: rest
    else (k', v') :: minsert k v rest

/-- `BTreeMap::remove` (drops the entry when present). -/
def merase {V : Type} (k : Nat) : Smap V → Smap V
  | [] => []
  | (k', v') :: rest => if k = k' then rest else (k', v') :: merase k rest

/-! ## The channel dependency graph (`src/wait.rs`, `Graph` / `GraphNode`)

The source's `GraphNode.relations : BTreeMap<GraphNodeKey, Rc<GraphNode>>` is
keyed by node id; traversals only ever follow the ids, and all `Rc` handles
alias the same mutable node, so the graph state is fully described by the flat
map from node id to successor-id set. -/

/-- All nodes' out-edges: node id ↦ sorted list of successor node ids. -/
abbrev Adjacency : Type := Smap (List Nat)

/-- Successors of a node (`GraphNode.relations` keys); a node id absent from
the pool has no successors. -/
def succs (adj : Adjacency) (n : Nat) : List Nat :=
  (mfind n adj).getD []

/-- `GraphNode::relation_exists`. -/
def relation_exists (adj : Adjacency) (f t : Nat) : Bool :=
  smem t (succs adj f)

/-- `_self.relations.insert(node.id, node)` on node `f`. -/
def insertEdge (adj : Adjacency) (f t : Nat) : Adjacency :=
  minsert f (sinsert t (succs adj f)) adj

/-- `_self.relations.remove(&node.id)` on node `f`. -/
def eraseEdge (adj : Adjacency) (f t : Nat) : Adjacency :=
  minsert f (serase t (succs adj f)) adj

/-- One breadth-first step list: `for (_, node) in &cur.relations` pushes the
successors (in ascending key order) to the back of the work queue.

The Rust loop (`GraphNode::path_has_loop`) has no fuel: it terminates because
every iteration either returns or moves a fresh id into the visited set, and
only fresh ids push successors, so at most `(number of pool entries) + (total
successor count) + 1` iterations happen.  `path_has_loop` below passes fuel
strictly above that bound, so the `0` fuel case (which conservatively reports
a loop) is never reached on any input; it also keeps every theorem about a
detected loop honest, since a loop is reported for every fuel value or none
below the bound. -/
def bfsLoop (adj : Adjacency) : Nat → List Nat → List Nat → Bool
  | 0, _, _ => true
  | _ + 1, _, [] => false
  | fuel + 1, nodes, cur :: rest =>
    if smem cur nodes then true
    else bfsLoop adj fuel (sinsert cur nodes) (rest ++ succs adj cur)

/-- Strict upper bound on the number of iterations of the Rust loop. -/
def bfsFuel (adj : Adjacency) : Nat :=
  adj.length + (adj.map (fun e => e.2.length)).sum + 2

/-- `GraphNode::path_has_loop` run from node `start`. -/
def path_has_loop (adj : Adjacency) (start : Nat) : Bool :=
  bfsLoop adj (bfsFuel adj) [] [start]

/-- `GraphNode::add_relation` called on node `f` with argument node `t`.
`Except.ok (adj, b)` commits, with `b` the Rust return value: `true` when the
edge was really inserted, `false` when it was already present (no change).
`Except.error` is the cycle rejection, with the tentative edge already
reverted, so the adjacency handed back to the caller is unchanged. -/
def add_relation (adj : Adjacency) (f t : Nat) : Except Unit (Adjacency × Bool) :=
  if relation_exists adj f t then Except.ok (adj, false)
  else
    let adj' := insertEdge adj f t
    if path_has_loop adj' f then Except.error ()
    else Except.ok (adj', true)

/-- `GraphNode::remove_relation` on node `f`. -/
def remove_relation (adj : Adjacency) (f t : Nat) : Adjacency × Bool :=
  if relation_exists adj f t then (eraseEdge adj f t, true) else (adj, false)

/-! ## `WaitMap` (`src/wait.rs`)

The `Graph` struct of the source only stores `next_id`; the live nodes are the
`Rc<GraphNode>` handles held in `chan_to_graph` and in other nodes' adjacency
maps, which the flat `Adjacency` pool represents (an entry replaced in
`chan_to_graph` stays in the pool exactly as the leaked-but-referenced `Rc`
stays alive in Rust). -/

structure WaitMap where
  /-- `chan`: channel ↦ set of threads waiting for its signal. -/
  chan : Smap (List Nat)
  /-- `thr`: thread ↦ set of channels it waits on. -/
  thr : Smap (List Nat)
  /-- `chan_to_graph`: channel ↦ graph node id. -/
  chan_to_graph : Smap Nat
  /-- `Graph.next_id`. -/
  next_id : Nat
  /-- The shared pool of graph nodes (see module comment). -/
  adj : Adjacency
  deriving DecidableEq, Repr

/-- `WaitMap::new()` / `Default`. -/
def WaitMap.new : WaitMap := ⟨[], [], [], 0, []⟩

/-- The `for thread in waiters.iter()` mirror loop shared by `add_channel`:
`thr[thread] ∪= {key}` for each waiter, creating the entry when missing. -/
def thrMirror (key : Nat) (waiters : List Nat) (thr : Smap (List Nat)) : Smap (List Nat) :=
  waiters.foldl (fun thr t => minsert t (sinsert key ((mfind t thr).getD [])) thr) thr

/-- `WaitMap::add_channel`.  Returns the updated map and the `added` flag. -/
def WaitMap.add_channel (wm : WaitMap) (key : Nat) (waiters : List Nat) : WaitMap × Bool :=
  let present := mcontains key wm.chan
  let wm :=
    if present then wm
    else
      { wm with
        chan := minsert key waiters wm.chan
        chan_to_graph := minsert key wm.next_id wm.chan_to_graph
        adj := minsert wm.next_id [] wm.adj
        next_id := wm.next_id + 1 }
  ({ wm with thr := thrMirror key waiters wm.thr }, !present)

/-- `WaitMap::remove_channel`.  Only the `chan` entry is ever removed; the
graph node and the `chan_to_graph` entry are left untouched by the source. -/
def WaitMap.remove_channel (wm : WaitMap) (key : Nat) : WaitMap × Option Bool :=
  match mfind key wm.chan with
  | none => (wm, none)
  | some waiters =>
    if waiters.isEmpty then ({ wm with chan := merase key wm.chan }, some true)
    else (wm, some false)

/-- `WaitMap::add_waiter`.  When the channel is unregistered it is inserted
with `{waiter}` and `false` is returned **without** touching `thr`. -/
def WaitMap.add_waiter (wm : WaitMap) (key waiter : Nat) : WaitMap × Bool :=
  match mfind key wm.chan with
  | some waiters =>
    let wm := { wm with chan := minsert key (sinsert waiter waiters) wm.chan }
    let wm :=
      if mcontains waiter wm.thr then wm
      else { wm with thr := minsert waiter [key] wm.thr }
    ({ wm with thr := minsert waiter (sinsert key ((mfind waiter wm.thr).getD [])) wm.thr }, true)
  | none => ({ wm with chan := minsert key [waiter] wm.chan }, false)

/-- `WaitMap::remove_waiter`.  `none` models the panic on
`self.thr.get_mut(&waiter).unwrap()` when the waiter was removed from the
channel set but has no `thr` entry. -/
def WaitMap.remove_waiter (wm : WaitMap) (key waiter : Nat) : Option (WaitMap × Bool) :=
  match mfind key wm.chan with
  | none => some (wm, false)
  | some waiters =>
    let present := smem waiter waiters
    let wm := { wm with chan := minsert key (serase waiter waiters) wm.chan }
    if present then
      match mfind waiter wm.thr with
      | none => none
      | some chans => some ({ wm with thr := minsert waiter (serase key chans) wm.thr }, true)
    else some (wm, false)

/-- The `for chan in channels.iter()` loop of `remove_thread`: removes the
thread from each channel's waiter set.  `Except.error` models the panic on
`self.chan.get_mut(chan).unwrap()` when a channel from the thread's `thr` set
is no longer in `chan`, and carries the partially updated map the panic
leaves behind. -/
def removeThreadLoop (key : Nat) (chans : List Nat) (chan : Smap (List Nat)) :
    Except (Smap (List Nat)) (Smap (List Nat)) :=
  match chans with
  | [] => Except.ok chan
  | c :: rest =>
    match mfind c chan with
    | none => Except.error chan
    | some waiters => removeThreadLoop key rest (minsert c (serase key waiters) chan)

/-- `WaitMap::remove_thread`.  Note the source never deletes the `thr` entry
itself.  `Except.error` is the panic, carrying the state at the panic. -/
def WaitMap.remove_thread (wm : WaitMap) (key : Nat) : Except WaitMap (WaitMap × Bool) :=
  match mfind key wm.thr with
  | none => Except.ok (wm, false)
  | some chans =>
    match removeThreadLoop key chans wm.chan with
    | Except.error chan' => Except.error { wm with chan := chan' }
    | Except.ok chan' => Except.ok ({ wm with chan := chan' }, true)

/-- `WaitMap::add_channel_relation` (argument order of the source: `to` then
`from`).  `Ok false` when either channel has no graph node; the cycle error
leaves the map unchanged (the node reverts its tentative edge). -/
def WaitMap.add_channel_relation (wm : WaitMap) (dst src : Nat) :
    WaitMap × Except Unit Bool :=
  match mfind dst wm.chan_to_graph, mfind src wm.chan_to_graph with
  | some tn, some fn =>
    match add_relation wm.adj fn tn with
    | Except.ok (adj', _) => ({ wm with adj := adj' }, Except.ok true)
    | Except.error () => (wm, Except.error ())
  | _, _ => (wm, Except.ok false)

/-- `WaitMap::remove_channel_relation` (argument order: `to`, `from`). -/
def WaitMap.remove_channel_relation (wm : WaitMap) (dst src : Nat) :
    WaitMap × Option Bool :=
  match mfind dst wm.chan_to_graph, mfind src wm.chan_to_graph with
  | some tn, some fn =>
    let (adj', removed) := remove_relation wm.adj fn tn
    ({ wm with adj := adj' }, some removed)
  | _, _ => (wm, none)

/-! ## Paths (`src/path.rs`)

A `Path` node holds a name and an optional parent handle; `RcPath` is the
reference-counted handle.  The iterator `PathIter::new` lists the chain of
nodes root-first, and `eq` / `partial_cmp` only ever read the `name` of each
node, so the root-first list of names determines both. -/

/-- `Path` / `RcPath`: a chain of named nodes ending at a root. -/
inductive RcPath where
  | root (name : String)
  | child (parent : RcPath) (name : String)
  deriving DecidableEq, Repr

/-- The names of the nodes of the path, root-first — the order in which
`PathIter` yields them. -/
def RcPath.toList : RcPath → List String
  | .root n => [n]
  | .child p n => p.toList ++ [n]

/-- `u32` / `usize` comparison (`Ord::cmp` on unsigned integers). -/
def natCmp (a b : Nat) : Ordering :=
  if a < b then .lt else if b < a then .gt else .eq

/-- `char` (Unicode scalar) comparison by scalar value. -/
def charCmp (a b : Char) : Ordering := natCmp a.toNat b.toNat

/-- Rust `str::cmp`: lexicographic on the byte representation, which orders
identically to lexicographic comparison of the Unicode scalar sequences. -/
def charsCmp : List Char → List Char → Ordering
  | [], [] => .eq
  | [], _ :: _ => .lt
  | _ :: _, [] => .gt
  | a :: as, b :: bs =>
    match charCmp a b with
    | .eq => charsCmp as bs
    | o => o

/-- `String::cmp` of two Rust strings. -/
def strCmp (a b : String) : Ordering := charsCmp a.data b.data

/-- The loop of `impl PartialOrd for RcPath::partial_cmp`, over the two
root-first name lists: first differing component decides with the string
comparison **reversed** (`cmp.reverse()` in the source); when one path runs
out, the longer (deeper) path is less. -/
def pathCmpLists : List String → List String → Ordering
  | i :: is, j :: js =>
    match strCmp i j with
    | .eq => pathCmpLists is js
    | o => o.swap
  | _ :: _, [] => .lt
  | [], _ :: _ => .gt
  | [], [] => .eq

/-- `impl Ord for RcPath::cmp` (= `partial_cmp(..).unwrap()`; `partial_cmp`
always returns `Some`). -/
def RcPath.cmp (a b : RcPath) : Ordering := pathCmpLists a.toList b.toList

/-- The loop of `impl PartialEq for RcPath::eq`: pairs of nodes are compared
by name; as soon as either iterator is exhausted — including when **both**
are — the loop returns `false`. -/
def pathEqLists : List String → List String → Bool
  | i :: is, j :: js => if i ≠ j then false else pathEqLists is js
  | _, _ => false

/-- `impl PartialEq for RcPath::eq`. -/
def RcPath.rustEq (a b : RcPath) : Bool := pathEqLists a.toList b.toList

/-! ## Interfaces (`src/interfaces/mod.rs`) -/

/-- `Version { major, minor, patch }` (`u32` fields). -/
structure Version where
  major : Nat
  minor : Nat
  patch : Nat
  deriving DecidableEq, Repr

/-- `impl Ord for Version`: major, then minor, then patch. -/
def Version.cmp (a b : Version) : Ordering :=
  match natCmp a.major b.major with
  | .lt => .lt
  | .gt => .gt
  | .eq =>
    match natCmp a.minor b.minor with
    | .lt => .lt
    | .gt => .gt
    | .eq => natCmp a.patch b.patch

/-- `interfaces::Key { path, version }`. -/
structure InterfaceKey where
  path : RcPath
  version : Version
  deriving DecidableEq, Repr

/-- `impl Ord for interfaces::Key`: by path, then by version. -/
def InterfaceKey.cmp (a b : InterfaceKey) : Ordering :=
  match RcPath.cmp a.path b.path with
  | .lt => .lt
  | .gt => .gt
  | .eq => Version.cmp a.version b.version

/-- `interfaces::Func { name, version }`. -/
structure Func where
  name : String
  version : Version
  deriving DecidableEq, Repr

/-- `Interface { fns, prerequisites }`. -/
structure Interface where
  fns : List Func
  prerequisites : List InterfaceKey
  deriving DecidableEq, Repr

/-- `BTreeSet<interfaces::Key>::insert` on a list ordered by
`InterfaceKey.cmp` (a key comparing `.eq` to a present one is dropped, as the
set already contains it). -/
def oinsert (x : InterfaceKey) : List InterfaceKey → List InterfaceKey
  | [] => [x]
  | y :: ys =>
    match InterfaceKey.cmp x y with
    | .lt => x :: y :: ys
    | .eq => y :: ys
    | .gt => y :: oinsert x ys

/-- `BTreeSet<interfaces::Key>::contains` (membership decided by the order,
exactly as a BTreeSet does). -/
def omem (x : InterfaceKey) (l : List InterfaceKey) : Bool :=
  l.any fun y =>
    match InterfaceKey.cmp x y with
    | .eq => true
    | _ => false

/-- `InterfaceSet.map : BTreeMap<Key, Rc<Interface>>`. -/
abbrev InterfaceSet : Type := List (InterfaceKey × Interface)

/-- `InterfaceSet::interface`: lookup by key order. -/
def ifind (k : InterfaceKey) : InterfaceSet → Option Interface
  | [] => none
  | (k', v) :: rest =>
    match InterfaceKey.cmp k k' with
    | .eq => some v
    | _ => ifind k rest

/-! ## Processes (`src/process.rs`) -/

/-- `Process { path, threads, implements }`. -/
structure Process where
  path : RcPath
  threads : List Nat
  implements : List InterfaceKey
  deriving DecidableEq, Repr

/-- `Process::new`. -/
def Process.new (p : RcPath) : Process := ⟨p, [], []⟩

/-- `Process::attach_thread` (`BTreeSet::insert`; the Rust bool is `true` for
a newly inserted key). -/
def Process.attach_thread (pr : Process) (k : Nat) : Process × Bool :=
  ({ pr with threads := sinsert k pr.threads }, !smem k pr.threads)

/-- `Process::add_implementation`. -/
def Process.add_implementation (pr : Process) (k : InterfaceKey) : Process × Bool :=
  ({ pr with implements := oinsert k pr.implements }, !omem k pr.implements)

/-- The `for interface in &self.implements` collection loop of
`verify_implementations`: `prerequisites.append(&mut interface.prerequisites().clone())`
unions each interface's prerequisite set into the accumulator; `none` models
the panic on `interface_set.interface(..).unwrap()` for an implemented key
missing from the set. -/
def collectPrereqs (iset : InterfaceSet) : List InterfaceKey → List InterfaceKey →
    Option (List InterfaceKey)
  | [], acc => some acc
  | i :: rest, acc =>
    match ifind i iset with
    | none => none
    | some intf => collectPrereqs iset rest (intf.prerequisites.foldl (fun a k => oinsert k a) acc)

/-- The `for prerequisite in prerequisites` filter loop of
`verify_implementations`: keep the prerequisites the process does not
implement. -/
def missingOf (implements pre : List InterfaceKey) : List InterfaceKey :=
  pre.foldl (fun m k => if omem k implements then m else oinsert k m) []

/-- `Process::verify_implementations`.  `none` = panic (an implemented
interface key absent from the interface set); otherwise `Ok(())` or
`Err(ImplementationConflicts { missing })`.  The Rust function takes `&self`
and `&InterfaceSet`, so it never modifies either — here it is simply a pure
function of both. -/
def Process.verify_implementations (pr : Process) (iset : InterfaceSet) :
    Option (Except (List InterfaceKey) Unit) :=
  match collectPrereqs iset pr.implements [] with
  | none => none
  | some pre =>
    let missing := missingOf pr.implements pre
    some (if missing.isEmpty then Except.ok () else Except.error missing)

/-! ## Threads and channels (`src/threads/mod.rs`, `src/channels/mod.rs`)

`src/threads` declares the `State` variants without payloads, while `lib.rs`
constructs `WaitWithTimeout(channel)` and `WaitWithoutTimeout(0)` — the crate
is inconsistent; the spec (and every use in `lib.rs`) gives the two wait
states a channel payload, so they carry one here. -/

/-- `threads::State` with the channel payloads `lib.rs` applies to it. -/
inductive ThreadState where
  | WaitWithoutTimeout (c : Nat)
  | WaitWithTimeout (c : Nat)
  | Active
  | Sleep
  deriving DecidableEq, Repr

/-- `std::mem::discriminant(&state) == discriminant(&WaitWithoutTimeout(0))`. -/
def isWaitWithoutTimeout : ThreadState → Bool
  | .WaitWithoutTimeout _ => true
  | _ => false

/-- `Thread { state, chans }`. -/
structure Thread where
  state : ThreadState
  chans : List Nat
  deriving DecidableEq, Repr

/-- `Thread::new` / `Default`: `Sleep`, no channels. -/
def Thread.new : Thread := ⟨.Sleep, []⟩

/-- Modelled from the spec: `Thread::is_waiting_channel` is called by
`Network::channel_signal` (`src/lib.rs` line 258) but is defined nowhere under
`src/`.  The spec's `channel_signal` step 2 wakes each participant whose state
is `WaitWithoutTimeout(c)` or `WaitWithTimeout(c)` for the signalled channel
`c`, so the predicate holds exactly for those two states with this channel. -/
def Thread.is_waiting_channel (t : Thread) (c : Nat) : Bool :=
  match t.state with
  | .WaitWithoutTimeout x => x = c
  | .WaitWithTimeout x => x = c
  | _ => false

/-- `threads::Set { map, last_key }`. -/
structure ThreadSet where
  map : Smap Thread
  last_key : Nat
  deriving DecidableEq, Repr

/-- `threads::Set::add`: allocates `last_key + 1`. -/
def ThreadSet.add (ts : ThreadSet) (t : Thread) : ThreadSet × Nat :=
  let new_key := ts.last_key + 1
  (⟨minsert new_key t ts.map, new_key⟩, new_key)

/-- `Channel { participants }`. -/
structure Channel where
  participants : List Nat
  deriving DecidableEq, Repr

/-- `Channel::new`: only the creator participates. -/
def Channel.new (creator : Nat) : Channel := ⟨[creator]⟩

/-- `Channel::add_participant`. -/
def Channel.add_participant (c : Channel) (t : Nat) : Channel × Bool :=
  (⟨sinsert t c.participants⟩, !smem t c.participants)

/-! ## The network façade (`src/lib.rs`)

`Network` also owns `interfaces : InterfaceSet` and `packages : PackageTree`;
no operation embedded here reads or writes either, so they are omitted from
the state.  Operations that mutate `self` in place return the new `Network`;
panics are explicit constructors / `Except.error` values carrying the state at
the moment of the panic. -/

structure Network where
  threads : ThreadSet
  processes : Smap Process
  channels : Smap Channel
  wait_deps : WaitMap
  next_process_key : Nat
  next_channel_key : Nat
  deriving DecidableEq, Repr

/-- `Network::new()` / `Default`. -/
def Network.new : Network := ⟨⟨[], 0⟩, [], [], WaitMap.new, 0, 0⟩

/-- `Network::new_process`. -/
def Network.new_process (net : Network) (p : Process) : Network × Nat :=
  let key := net.next_process_key
  ({ net with
      processes := minsert key p net.processes
      next_process_key := key + 1 }, key)

/-- `Network::new_thread`. -/
def Network.new_thread (net : Network) (t : Thread) (pk : Nat) : Network × Option Nat :=
  match mfind pk net.processes with
  | none => (net, none)
  | some pr =>
    let (ts, tk) := net.threads.add t
    let pr := (pr.attach_thread tk).1
    ({ net with threads := ts, processes := minsert pk pr net.processes }, some tk)

/-- The `// Register channel to all threads` loop of `new_channel`;
`Except.error` is the panic on `self.threads.get_mut(&participant).unwrap()`
(unreachable after the existence check, kept for fidelity). -/
def registerChanLoop (key : Nat) (parts : List Nat) (m : Smap Thread) :
    Except (Smap Thread) (Smap Thread) :=
  match parts with
  | [] => Except.ok m
  | p :: rest =>
    match mfind p m with
    | none => Except.error m
    | some th => registerChanLoop key rest (minsert p { th with chans := sinsert key th.chans } m)

/-- `Network::new_channel`: `Except.error` = panic; `(net, none)` = a
participant is not registered; `(net, some key)` = success. -/
def Network.new_channel (net : Network) (ch : Channel) : Except Network (Network × Option Nat) :=
  if ch.participants.all (fun p => mcontains p net.threads.map) then
    let key := net.next_channel_key
    let net := { net with channels := minsert key ch net.channels }
    let net := { net with wait_deps := (net.wait_deps.add_channel key []).1 }
    let net := { net with next_channel_key := key + 1 }
    match registerChanLoop key ch.participants net.threads.map with
    | Except.error m => Except.error { net with threads := { net.threads with map := m } }
    | Except.ok m => Except.ok ({ net with threads := { net.threads with map := m } }, some key)
  else Except.ok (net, none)

/-- `Network::change_thread_state_remove_deps`.  `Except.error` carries the
state at a panic inside `WaitMap::remove_thread`. -/
def Network.change_thread_state_remove_deps (net : Network) (t : Nat) (st : ThreadState) :
    Except Network (Network × Option Unit) :=
  match mfind t net.threads.map with
  | none => Except.ok (net, none)
  | some thr =>
    let old := thr.state
    let net := { net with threads := { net.threads with map := minsert t { thr with state := st } net.threads.map } }
    if isWaitWithoutTimeout old then
      match net.wait_deps.remove_thread t with
      | Except.error wm => Except.error { net with wait_deps := wm }
      | Except.ok (wm, _) => Except.ok ({ net with wait_deps := wm }, some ())
    else Except.ok (net, some ())

/-- `Network::sleep_thread`. -/
def Network.sleep_thread (net : Network) (t : Nat) : Except Network (Network × Option Unit) :=
  net.change_thread_state_remove_deps t .Sleep

/-- `Network::active_thread`. -/
def Network.active_thread (net : Network) (t : Nat) : Except Network (Network × Option Unit) :=
  net.change_thread_state_remove_deps t .Active

/-- Result of `Network::wait_thread` (`Result<Option<()>, ()>` in Rust, plus
the two panic sites), carrying the mutated network:
`ok` = `Ok(Some(()))`, `notFound` = `Ok(None)`, `deadlock` = `Err(())`,
`panicked` = the `channels.get(ch).unwrap()` or the explicit `panic!`. -/
inductive WtRes where
  | panicked (st : Network)
  | notFound (st : Network)
  | deadlock (st : Network)
  | ok (st : Network)
  deriving DecidableEq, Repr

/-- The `for ch in thread.channels()` relation sweep of `wait_thread`:
attempts `add_channel_relation(signal_source, ch)` for every channel of the
thread whose participant count equals the **number of channels registered in
the wait map** (`wd.channel_wait_map().len()` in the source).  `Except.error`
carries the map at a panic (missing channel, or the `panic!` when
`add_channel_relation` returns `Ok(false)`); `Except.ok (wm, err)` gives the
map after the sweep and whether a cycle error broke it. -/
def waitRelLoop (channels : Smap Channel) (sig : Nat) (wm : WaitMap) :
    List Nat → Except WaitMap (WaitMap × Bool)
  | [] => Except.ok (wm, false)
  | ch :: rest =>
    match mfind ch channels with
    | none => Except.error wm
    | some chan =>
      if chan.participants.length = wm.chan.length then
        match WaitMap.add_channel_relation wm sig ch with
        | (wm', Except.error ()) => Except.ok (wm', true)
        | (wm', Except.ok b) =>
          if b then waitRelLoop channels sig wm' rest else Except.error wm'
      else waitRelLoop channels sig wm rest

/-- The `// Revert changes if loop occured` sweep of `wait_thread`: removes
the relation `(signal_source, ch)` for **every** `ch` in the thread's channel
set, results ignored. -/
def revertLoop (sig : Nat) (chans : List Nat) (wm : WaitMap) : WaitMap :=
  chans.foldl (fun wm ch => (wm.remove_channel_relation sig ch).1) wm

/-- `Network::wait_thread`. -/
def Network.wait_thread (net : Network) (tk sig : Nat) (timer : Bool) : WtRes :=
  if timer then
    match net.change_thread_state_remove_deps tk (.WaitWithTimeout sig) with
    | Except.error st => .panicked st
    | Except.ok (st, none) => .notFound st
    | Except.ok (st, some ()) => .ok st
  else
    match mfind sig net.channels with
    | none => .notFound net
    | some _ =>
      match mfind tk net.threads.map with
      | none => .notFound net
      | some thr =>
        match waitRelLoop net.channels sig ((net.wait_deps.add_waiter sig tk).1) thr.chans with
        | Except.error wm' => .panicked { net with wait_deps := wm' }
        | Except.ok (wm', err) =>
          if err then .deadlock { net with wait_deps := revertLoop sig thr.chans wm' }
          else .ok { net with wait_deps := wm' }

/-- Result of `Network::channel_signal` (`Result<LinkedList<ThreadKey>, ()>`
in Rust plus the panic sites): `ok st woken` = `Ok(list)` (the list is in the
order the Rust `push_front` loop leaves it: descending thread key),
`err` = `Err(())`, `panicked` = a panic, in particular the
`self.wait_thread(..).unwrap()` on a cycle rejection. -/
inductive SigRes where
  | panicked (st : Network)
  | err (st : Network)
  | ok (st : Network) (woken : List Nat)
  deriving DecidableEq, Repr

/-- The wake-up loop of `channel_signal`: each participant currently waiting
on the channel is pushed to the front of the list and made `Active` (the
return value of `active_thread` is discarded; a panic inside it propagates). -/
def wakeLoop (net : Network) (ckey : Nat) (parts acc : List Nat) :
    Except Network (Network × List Nat) :=
  match parts with
  | [] => Except.ok (net, acc)
  | p :: rest =>
    match mfind p net.threads.map with
    | none => Except.error net
    | some th =>
      if th.is_waiting_channel ckey then
        match net.active_thread p with
        | Except.error st => Except.error st
        | Except.ok (net', _) => wakeLoop net' ckey rest (p :: acc)
      else wakeLoop net ckey rest acc

/-- `Network::channel_signal`.  The sender's own wait is executed through
`self.wait_thread(sender, channel, timer).unwrap()`: an `Err` from
`wait_thread` makes the `unwrap` panic. -/
def Network.channel_signal (net : Network) (sender ckey : Nat) (timer : Bool) : SigRes :=
  match mfind ckey net.channels with
  | none => .err net
  | some chan =>
    if smem sender chan.participants then
      match wakeLoop net ckey chan.participants [] with
      | Except.error st => .panicked st
      | Except.ok (net', woken) =>
        match net'.wait_thread sender ckey timer with
        | .panicked st => .panicked st
        | .deadlock st => .panicked st
        | .notFound st => .ok st woken
        | .ok st => .ok st woken
    else .err net

/-! ## Specification-side definitions

These follow the wording of the spec, independently of the implementation;
they are only compared with what the embedded code computes. -/

/-- One breadth step of plain reachability: all successors of a frontier. -/
def stepAll (adj : Adjacency) (frontier : List Nat) : List Nat :=
  frontier.foldl (fun acc n => acc ++ succs adj n) []

/-- Closure of a frontier under out-edges (fuel bounds the rounds; with
`bfsFuel` rounds every reachable node is collected, since each productive
round adds at least one id and only finitely many occur). -/
def reachClosure (adj : Adjacency) : Nat → List Nat → List Nat → List Nat
  | 0, visited, _ => visited
  | fuel + 1, visited, frontier =>
    let fresh := (stepAll adj frontier).filter (fun n => !smem n visited)
    match fresh with
    | [] => visited
    | _ => reachClosure adj fuel (visited ++ fresh) fresh

/-- Nodes reachable from `n` in one or more steps. -/
def reachableFrom (adj : Adjacency) (n : Nat) : List Nat :=
  reachClosure adj (bfsFuel adj) (succs adj n) (succs adj n)

/-- The spec's notion of a cycle: some node of the graph reaches itself by a
non-empty path over out-edges. -/
def hasCycle (adj : Adjacency) : Bool :=
  (adj.map Prod.fst).any (fun n => smem n (reachableFrom adj n))

/-- Edge `cf → ct` of the channel dependency graph, read at channel level
through the `chan_to_graph` association. -/
def hasEdge (wm : WaitMap) (cf ct : Nat) : Bool :=
  match mfind cf wm.chan_to_graph, mfind ct wm.chan_to_graph with
  | some nf, some nt => smem nt (succs wm.adj nf)
  | _, _ => false

/-- The spec's side condition for attempting an edge in `wait_thread`: the
thread is a waiter on some channel of the wait map. -/
def isWaiterSomewhere (wm : WaitMap) (t : Nat) : Bool :=
  wm.chan.any (fun e => smem t e.2)

/-- The spec's "fully locked channel": every participant is already a waiter
on some channel in the wait map. -/
def fullyLocked (wm : WaitMap) (ch : Channel) : Bool :=
  ch.participants.all (isWaiterSomewhere wm)

/-! ## Projections for chaining and classifying concrete runs -/

instance {ε α : Type} [DecidableEq ε] [DecidableEq α] : DecidableEq (Except ε α) := fun a b =>
  match a, b with
  | .error e, .error f =>
    if h : e = f then isTrue (by rw [h]) else isFalse (by intro hh; cases hh; exact h rfl)
  | .error _, .ok _ => isFalse (by intro hh; cases hh)
  | .ok _, .error _ => isFalse (by intro hh; cases hh)
  | .ok x, .ok y =>
    if h : x = y then isTrue (by rw [h]) else isFalse (by intro hh; cases hh; exact h rfl)

/-- The network state carried by a `wait_thread` result. -/
def WtRes.st : WtRes → Network
  | .panicked s => s
  | .notFound s => s
  | .deadlock s => s
  | .ok s => s

/-- Did `wait_thread` return `Err(())` (the deadlock rejection)? -/
def WtRes.isDeadlock : WtRes → Bool
  | .deadlock _ => true
  | _ => false

/-- Did `wait_thread` return `Ok(Some(()))`? -/
def WtRes.isOk : WtRes → Bool
  | .ok _ => true
  | _ => false

/-- The network state carried by a `channel_signal` result. -/
def SigRes.st : SigRes → Network
  | .panicked s => s
  | .err s => s
  | .ok s _ => s

/-- Did `channel_signal` end in a panic? -/
def SigRes.isPanic : SigRes → Bool
  | .panicked _ => true
  | _ => false

/-- The network state carried by a `new_channel` result. -/
def newChanSt : Except Network (Network × Option Nat) → Network
  | .error st => st
  | .ok (st, _) => st

/-! ## Concrete networks reached through the public constructors -/

/-- The path used for the concrete processes. -/
def pRoot : RcPath := .root "a"

/-- A network with one registered process (key 0). -/
def netBase : Network := (Network.new.new_process (Process.new pRoot)).1

/-- Register one fresh thread with process 0. -/
def addThread (n : Network) : Network := (n.new_thread Thread.new 0).1

/-- Two threads (keys 1, 2) in process 0. -/
def net2 : Network := addThread (addThread netBase)

/-- Eight threads (keys 1..8) in process 0. -/
def net8 : Network :=
  addThread (addThread (addThread (addThread (addThread (addThread (addThread (addThread netBase)))))))

/-- Channel with participants `{1, 2}` built the way the source tests do. -/
def chanPair : Channel := ((Channel.new 1).add_participant 2).1

/-- Participants `{1, 2, 3}`. -/
def chan123 : Channel := (((Channel.new 1).add_participant 2).1.add_participant 3).1

/-- Participants `{1, 4, 5}`. -/
def chan145 : Channel := (((Channel.new 1).add_participant 4).1.add_participant 5).1

/-- Participants `{6, 7, 8}`. -/
def chan678 : Channel := (((Channel.new 6).add_participant 7).1.add_participant 8).1

/-- Two threads and one channel `0 = {1, 2}`. -/
def netOneChan : Network := newChanSt (net2.new_channel chanPair)

/-- Two threads and two channels `0 = {1, 2}`, `1 = {1, 2}`. -/
def netTwoChans : Network := newChanSt (netOneChan.new_channel chanPair)

/-- `netTwoChans` after `wait_thread(2, 0, timer = true)`: thread 2 is in
`WaitWithTimeout(0)`. -/
def netC5 : Network := (netTwoChans.wait_thread 2 0 true).st

/-- Eight threads, channels `0 = {1,2,3}`, `1 = {1,4,5}`, `2 = {6,7,8}`. -/
def netThreeChans : Network :=
  newChanSt ((newChanSt ((newChanSt (net8.new_channel chan123)).new_channel chan145)).new_channel chan678)

/-- `netThreeChans` after the two successful calls `wait_thread(2, 2, false)`
(which commits the graph edge `0 → 2`) and `wait_thread(6, 1, false)` (which
commits `2 → 1`). -/
def netC2pre : Network :=
  ((netThreeChans.wait_thread 2 2 false).st.wait_thread 6 1 false).st

/-- The diamond DAG `0 → 1, 1 → 3, 2 → 3` over four nodes. -/
def diamondAdj : Adjacency := [(0, [1]), (1, [3]), (2, [3]), (3, [])]

/-- Wait map with channels 0 and 1 registered (graph nodes 0 and 1) and the
committed relation `0 → 1` (`add_channel_relation(to = 1, from = 0)`). -/
def wmEdge : WaitMap :=
  (((WaitMap.new.add_channel 0 []).1.add_channel 1 []).1.add_channel_relation 1 0).1

/-! ## Further concrete states used by witnesses -/

/-- Wait map with one registered channel `0` (graph node 0, no edges). -/
def wm8 : WaitMap := (WaitMap.new.add_channel 0 []).1

/-- Wait map built by `add_channel(0, {2})` then `add_channel(1, ∅)`:
channel `1` has no waiters and thread `2` has a thread-index entry `{0}`. -/
def wm7 : WaitMap := ((WaitMap.new.add_channel 0 [2]).1.add_channel 1 []).1

/-- The network `channel_signal` leaves after waking thread 2 on `netC5`
(the state in which the sender's own `wait_thread` then runs). -/
def netC5wake : Network :=
  match wakeLoop netC5 0 chanPair.participants [] with
  | Except.ok (n, _) => n
  | Except.error n => n

/-- The state carried by the deadlock rejection of the sender's wait inside
`channel_signal` on `netC5` — the state at the moment of the panic. -/
def netC5panic : Network := (netC5wake.wait_thread 1 0 false).st

/-- The path `a.b` of the source test `implementation_verification`. -/
def pAB : RcPath := .child (.root "a") "b"

/-- Interface key `(a.b, 1.0.0)` of the source test. -/
def ik0 : InterfaceKey := ⟨pAB, ⟨1, 0, 0⟩⟩

/-- Interface key `(a.b, 1.1.0)`. -/
def ik1 : InterfaceKey := ⟨pAB, ⟨1, 1, 0⟩⟩

/-- Interface key `(a.b, 2.0.0)`. -/
def ik2 : InterfaceKey := ⟨pAB, ⟨2, 0, 0⟩⟩

/-- The interface of the source test, with prerequisites `{ik1, ik2}`. -/
def intf9 : Interface := ⟨[], [ik1, ik2]⟩

/-- The interface set of the source test: all three keys map to `intf9`
(the keys are listed in their `InterfaceKey.cmp` order, as a `BTreeMap`
holds them). -/
def iset9 : InterfaceSet := [(ik0, intf9), (ik1, intf9), (ik2, intf9)]

/-- The process of the source test: implements `{ik0, ik1}`. -/
def proc9 : Process :=
  (((Process.new pAB).add_implementation ik0).1.add_implementation ik1).1

/-! ## Lemmas about the ordered-list operations -/

/-- Keys of an association list are strictly increasing (the invariant every
`BTreeMap` state satisfies). -/
def keysSorted {V : Type} (m : Smap V) : Prop :=
  List.Pairwise (fun a b => a.1 < b.1) m

instance {V : Type} (m : Smap V) : Decidable (keysSorted m) := by
  unfold keysSorted; infer_instance

theorem smem_iff_mem {x : Nat} {s : List Nat} : smem x s = true ↔ x ∈ s := by
  induction s with
  | nil => simp [smem]
  | cons y ys ih =>
    by_cases h : x = y
    · simp [smem, h]
    · simp [smem, h, ih]

theorem smem_sinsert_self (x : Nat) (s : List Nat) : smem x (sinsert x s) = true := by
  induction s with
  | nil => simp [sinsert, smem]
  | cons y ys ih =>
    by_cases h1 : x < y
    · simp [sinsert, h1, smem]
    · by_cases h2 : x = y
      · simp [sinsert, h1, h2, smem]
      · simp [sinsert, h1, h2, smem, ih]

theorem serase_sinsert {x : Nat} {s : List Nat} (h : smem x s = false) :
    serase x (sinsert x s) = s := by
  induction s with
  | nil => simp [sinsert, serase]
  | cons y ys ih =>
    have hxy : x ≠ y := by
      intro he; rw [he] at h; simp [smem] at h
    have hys : smem x ys = false := by
      simpa [smem, hxy] using h
    by_cases h1 : x < y
    · simp [sinsert, h1, serase, hxy]
    · simp [sinsert, h1, hxy, serase, ih hys]

theorem mfind_minsert_self {V : Type} (k : Nat) (v : V) (m : Smap V) :
    mfind k (minsert k v m) = some v := by
  induction m with
  | nil => simp [minsert, mfind]
  | cons e rest ih =>
    obtain ⟨k', v'⟩ := e
    by_cases h1 : k < k'
    · simp [minsert, h1, mfind]
    · by_cases h2 : k = k'
      · simp [minsert, h1, h2, mfind]
      · simp [minsert, h1, h2, mfind, ih]

theorem minsert_minsert {V : Type} (k : Nat) (v w : V) (m : Smap V) :
    minsert k v (minsert k w m) = minsert k v m := by
  induction m with
  | nil => simp [minsert]
  | cons e rest ih =>
    obtain ⟨k', v'⟩ := e
    by_cases h1 : k < k'
    · simp [minsert, h1]
    · by_cases h2 : k = k'
      · simp [minsert, h1, h2]
      · simp [minsert, h1, h2, ih]

theorem mfind_none_of_lt_keys {V : Type} {k : Nat} {m : Smap V}
    (h : ∀ e ∈ m, k < e.1) : mfind k m = none := by
  induction m with
  | nil => rfl
  | cons e rest ih =>
    have hk : k ≠ e.1 := Nat.ne_of_lt (h e (List.mem_cons_self e rest))
    obtain ⟨k', v'⟩ := e
    simp only [mfind, if_neg hk]
    exact ih fun e' he' => h e' (List.mem_cons_of_mem _ he')

theorem minsert_of_mfind {V : Type} {m : Smap V} (hs : keysSorted m) {k : Nat} {v : V}
    (h : mfind k m = some v) : minsert k v m = m := by
  induction m with
  | nil => cases h
  | cons e rest ih =>
    obtain ⟨k', v'⟩ := e
    by_cases h2 : k = k'
    · subst h2
      simp [mfind] at h
      subst h
      simp [minsert, Nat.lt_irrefl]
    · have hrest : mfind k rest = some v := by simpa [mfind, h2] using h
      have h1 : ¬ k < k' := by
        intro hlt
        have : mfind k rest = none := by
          apply mfind_none_of_lt_keys
          intro e' he'
          exact Nat.lt_trans hlt ((List.pairwise_cons.mp hs).1 e' he')
        rw [this] at hrest; cases hrest
      simp [minsert, h1, h2, ih (List.pairwise_cons.mp hs).2 hrest]

theorem mfind_merase_self {V : Type} {m : Smap V} (hs : keysSorted m) (k : Nat) :
    mfind k (merase k m) = none := by
  induction m with
  | nil => rfl
  | cons e rest ih =>
    obtain ⟨k', v'⟩ := e
    by_cases h2 : k = k'
    · subst h2
      simp only [merase, if_pos rfl]
      apply mfind_none_of_lt_keys
      intro e' he'
      exact (List.pairwise_cons.mp hs).1 e' he'
    · simp [merase, h2, mfind, ih (List.pairwise_cons.mp hs).2]

/-! ## Lemmas about the traversal -/

/-- Once the start of a self-loop sits in the work queue, the breadth-first
sweep of `path_has_loop` answers `true` for every fuel value: each step
either reports the duplicate or keeps `n` queued (popping `n` re-enqueues it
through its self-edge). -/
theorem bfsLoop_self_mem {adj : Adjacency} {n : Nat}
    (hself : smem n (succs adj n) = true) :
    ∀ (fuel : Nat) (nodes queue : List Nat), n ∈ queue →
      bfsLoop adj fuel nodes queue = true := by
  intro fuel
  induction fuel with
  | zero => intro nodes queue _; rfl
  | succ f ih =>
    intro nodes queue hq
    cases queue with
    | nil => cases hq
    | cons cur rest =>
      by_cases h : smem cur nodes = true
      · simp [bfsLoop, h]
      · have hb : smem cur nodes = false := by
          cases hcur : smem cur nodes
          · rfl
          · exact absurd hcur h
        simp only [bfsLoop, hb, Bool.false_eq_true, if_false]
        apply ih
        rcases List.mem_cons.mp hq with hceq | hmem
        · subst hceq
          exact List.mem_append_right rest (smem_iff_mem.mp hself)
        · exact List.mem_append_left _ hmem

/-- A `deadlock` result of `wait_thread` carries the thread table of the
network the call was made on: the rejection never touches thread states. -/
theorem wait_thread_deadlock_threads {net : Network} {tk sig : Nat} {timer : Bool}
    {st : Network} (h : net.wait_thread tk sig timer = WtRes.deadlock st) :
    st.threads = net.threads := by
  unfold Network.wait_thread at h
  by_cases ht : timer
  · rw [if_pos ht] at h
    split at h <;> cases h
  · rw [if_neg ht] at h
    split at h
    · cases h
    · split at h
      · cases h
      · split at h
        · cases h
        · split at h
          · injection h with h'
            rw [← h']
          · cases h

/-! ## Lemmas about the key orderings -/

theorem natCmp_eq_iff {a b : Nat} : natCmp a b = .eq ↔ a = b := by
  unfold natCmp
  by_cases h1 : a < b
  · simp only [h1, if_true]
    constructor
    · intro h; cases h
    · omega
  · by_cases h2 : b < a
    · simp only [h1, if_false, h2, if_true]
      constructor
      · intro h; cases h
      · omega
    · simp only [h1, if_false, h2]
      constructor
      · intro _; omega
      · intro _; trivial

theorem charCmp_eq_iff {a b : Char} : charCmp a b = .eq ↔ a = b := by
  unfold charCmp
  rw [natCmp_eq_iff]
  constructor
  · intro h
    apply Char.eq_of_val_eq
    apply UInt32.ext
    exact h
  · intro h
    rw [h]

theorem charsCmp_eq_iff : ∀ {l1 l2 : List Char}, charsCmp l1 l2 = .eq ↔ l1 = l2 := by
  intro l1
  induction l1 with
  | nil =>
    intro l2
    cases l2 <;> simp [charsCmp]
  | cons a as ih =>
    intro l2
    cases l2 with
    | nil => simp [charsCmp]
    | cons b bs =>
      unfold charsCmp
      cases hab : charCmp a b with
      | eq =>
        have : a = b := charCmp_eq_iff.mp hab
        subst this
        rw [ih]
        simp
      | lt =>
        simp only []
        constructor
        · intro h; cases h
        · intro h
          injection h with h1 h2
          subst h1
          rw [charCmp_eq_iff.mpr rfl] at hab
          cases hab
      | gt =>
        simp only []
        constructor
        · intro h; cases h
        · intro h
          injection h with h1 h2
          subst h1
          rw [charCmp_eq_iff.mpr rfl] at hab
          cases hab

theorem strCmp_eq_iff {a b : String} : strCmp a b = .eq ↔ a = b := by
  unfold strCmp
  rw [charsCmp_eq_iff]
  constructor
  · exact String.ext
  · intro h; rw [h]

theorem swap_eq_eq_iff {o : Ordering} : o.swap = .eq ↔ o = .eq := by
  cases o <;> simp [Ordering.swap]

theorem pathCmpLists_eq_iff : ∀ {l1 l2 : List String}, pathCmpLists l1 l2 = .eq ↔ l1 = l2 := by
  intro l1
  induction l1 with
  | nil =>
    intro l2
    cases l2 <;> simp [pathCmpLists]
  | cons a as ih =>
    intro l2
    cases l2 with
    | nil => simp [pathCmpLists]
    | cons b bs =>
      unfold pathCmpLists
      cases hab : strCmp a b with
      | eq =>
        have : a = b := strCmp_eq_iff.mp hab
        subst this
        rw [ih]
        simp
      | lt =>
        simp only [Ordering.swap]
        constructor
        · intro h; cases h
        · intro h
          injection h with h1 h2
          subst h1
          rw [strCmp_eq_iff.mpr rfl] at hab
          cases hab
      | gt =>
        simp only [Ordering.swap]
        constructor
        · intro h; cases h
        · intro h
          injection h with h1 h2
          subst h1
          rw [strCmp_eq_iff.mpr rfl] at hab
          cases hab

theorem toList_ne_nil (p : RcPath) : p.toList ≠ [] := by
  cases p <;> simp [RcPath.toList]

theorem toList_injective : ∀ {a b : RcPath}, a.toList = b.toList → a = b := by
  intro a
  induction a with
  | root n =>
    intro b h
    cases b with
    | root m =>
      simp [RcPath.toList] at h
      rw [h]
    | child q m =>
      exfalso
      simp only [RcPath.toList] at h
      cases hq : q.toList with
      | nil => exact toList_ne_nil q hq
      | cons x xs =>
        rw [hq] at h
        simp at h
  | child p n ih =>
    intro b h
    cases b with
    | root m =>
      exfalso
      simp only [RcPath.toList] at h
      cases hq : p.toList with
      | nil => exact toList_ne_nil p hq
      | cons x xs =>
        rw [hq] at h
        simp at h
    | child q m =>
      simp only [RcPath.toList] at h
      have := List.append_inj' h rfl
      rw [ih this.1]
      simp at this
      rw [this.2]

theorem pathCmp_eq_iff {a b : RcPath} : RcPath.cmp a b = .eq ↔ a = b := by
  unfold RcPath.cmp
  rw [pathCmpLists_eq_iff]
  constructor
  · exact toList_injective
  · intro h; rw [h]

theorem versionCmp_eq_iff {a b : Version} : Version.cmp a b = .eq ↔ a = b := by
  obtain ⟨x1, y1, z1⟩ := a
  obtain ⟨x2, y2, z2⟩ := b
  unfold Version.cmp
  cases h1 : natCmp x1 x2 <;> simp only []
  · constructor
    · intro h; cases h
    · intro h
      injection h with e1 e2 e3
      subst e1
      rw [natCmp_eq_iff.mpr rfl] at h1
      cases h1
  · cases h2 : natCmp y1 y2 <;> simp only []
    · constructor
      · intro h; cases h
      · intro h
        injection h with e1 e2 e3
        subst e2
        rw [natCmp_eq_iff.mpr rfl] at h2
        cases h2
    · rw [natCmp_eq_iff]
      have e1 : x1 = x2 := natCmp_eq_iff.mp h1
      have e2 : y1 = y2 := natCmp_eq_iff.mp h2
      subst e1; subst e2
      constructor
      · intro h; rw [h]
      · intro h
        injection h
    · constructor
      · intro h; cases h
      · intro h
        injection h with e1 e2 e3
        subst e2
        rw [natCmp_eq_iff.mpr rfl] at h2
        cases h2
  · constructor
    · intro h; cases h
    · intro h
      injection h with e1 e2 e3
      subst e1
      rw [natCmp_eq_iff.mpr rfl] at h1
      cases h1

theorem keyCmp_eq_iff {a b : InterfaceKey} : InterfaceKey.cmp a b = .eq ↔ a = b := by
  obtain ⟨pa, va⟩ := a
  obtain ⟨pb, vb⟩ := b
  unfold InterfaceKey.cmp
  cases h1 : RcPath.cmp pa pb <;> simp only []
  · constructor
    · intro h; cases h
    · intro h
      injection h with e1 e2
      subst e1
      rw [pathCmp_eq_iff.mpr rfl] at h1
      cases h1
  · rw [versionCmp_eq_iff]
    have e1 : pa = pb := pathCmp_eq_iff.mp h1
    subst e1
    constructor
    · intro h; rw [h]
    · intro h
      injection h
  · constructor
    · intro h; cases h
    · intro h
      injection h with e1 e2
      subst e1
      rw [pathCmp_eq_iff.mpr rfl] at h1
      cases h1

/-! ## Lemmas about the interface-key set operations -/

theorem omem_iff {x : InterfaceKey} {l : List InterfaceKey} : omem x l = true ↔ x ∈ l := by
  unfold omem
  rw [List.any_eq_true]
  constructor
  · rintro ⟨y, hy, he⟩
    cases hc : InterfaceKey.cmp x y <;> rw [hc] at he
    · cases he
    · rw [keyCmp_eq_iff.mp hc]; exact hy
    · cases he
  · intro hx
    refine ⟨x, hx, ?_⟩
    rw [keyCmp_eq_iff.mpr rfl]

theorem oinsert_mem {a x : InterfaceKey} : ∀ {l : List InterfaceKey},
    a ∈ oinsert x l ↔ a = x ∨ a ∈ l := by
  intro l
  induction l with
  | nil => simp [oinsert]
  | cons y ys ih =>
    unfold oinsert
    cases hc : InterfaceKey.cmp x y
    · simp [List.mem_cons]
    · have : x = y := keyCmp_eq_iff.mp hc
      subst this
      simp only [List.mem_cons]
      constructor
      · intro h; right; exact h
      · rintro (h | h)
        · left; rw [h]
        · exact h
    · simp only [List.mem_cons, ih]
      constructor
      · rintro (h | h | h)
        · right; left; exact h
        · left; exact h
        · right; right; exact h
      · rintro (h | h | h)
        · right; left; exact h
        · left; exact h
        · right; right; exact h

theorem foldl_oinsert_mem {k : InterfaceKey} : ∀ (l acc : List InterfaceKey),
    k ∈ l.foldl (fun a x => oinsert x a) acc ↔ k ∈ acc ∨ k ∈ l := by
  intro l
  induction l with
  | nil => simp
  | cons x xs ih =>
    intro acc
    simp only [List.foldl_cons, ih, oinsert_mem, List.mem_cons]
    constructor
    · rintro ((h | h) | h)
      · right; left; exact h
      · left; exact h
      · right; right; exact h
    · rintro (h | h | h)
      · left; right; exact h
      · left; left; exact h
      · right; exact h

theorem collectPrereqs_spec (iset : InterfaceSet) :
    ∀ (impl acc : List InterfaceKey),
      (∀ i ∈ impl, (ifind i iset).isSome = true) →
      ∃ pre, collectPrereqs iset impl acc = some pre ∧
        ∀ k, k ∈ pre ↔ (k ∈ acc ∨
          ∃ i ∈ impl, ∃ intf, ifind i iset = some intf ∧ k ∈ intf.prerequisites) := by
  intro impl
  induction impl with
  | nil =>
    intro acc _
    refine ⟨acc, rfl, ?_⟩
    simp
  | cons i rest ih =>
    intro acc h
    obtain ⟨intf, heq⟩ : ∃ intf, ifind i iset = some intf := by
      have hi := h i (List.mem_cons_self i rest)
      cases hif : ifind i iset
      · rw [hif] at hi; cases hi
      · exact ⟨_, rfl⟩
    have hrest : ∀ i' ∈ rest, (ifind i' iset).isSome = true :=
      fun i' hi' => h i' (List.mem_cons_of_mem _ hi')
    obtain ⟨pre, hpre, hmem⟩ :=
      ih (intf.prerequisites.foldl (fun a kk => oinsert kk a) acc) hrest
    refine ⟨pre, ?_, ?_⟩
    · unfold collectPrereqs
      rw [heq]
      exact hpre
    · intro k
      rw [hmem k, foldl_oinsert_mem]
      constructor
      · rintro ((hk | hk) | ⟨i', hi', intf', hint', hk⟩)
        · left; exact hk
        · right; exact ⟨i, List.mem_cons_self i rest, intf, heq, hk⟩
        · right; exact ⟨i', List.mem_cons_of_mem _ hi', intf', hint', hk⟩
      · rintro (hk | ⟨i', hi', intf', hint', hk⟩)
        · left; left; exact hk
        · rcases List.mem_cons.mp hi' with rfl | hi''
          · rw [heq] at hint'
            injection hint' with he
            subst he
            left; right; exact hk
          · right; exact ⟨i', hi'', intf', hint', hk⟩

theorem foldl_missing_mem (impl : List InterfaceKey) (k : InterfaceKey) :
    ∀ (pre acc : List InterfaceKey),
      k ∈ pre.foldl (fun m kk => if omem kk impl then m else oinsert kk m) acc ↔
        k ∈ acc ∨ (k ∈ pre ∧ omem k impl = false) := by
  intro pre
  induction pre with
  | nil => simp
  | cons p rest ih =>
    intro acc
    simp only [List.foldl_cons, ih, List.mem_cons]
    cases hp : omem p impl
    · simp only [Bool.false_eq_true, if_false, oinsert_mem]
      constructor
      · rintro ((hk | hk) | hk)
        · subst hk; right; exact ⟨Or.inl rfl, hp⟩
        · left; exact hk
        · right; exact ⟨Or.inr hk.1, hk.2⟩
      · rintro (hk | ⟨hk | hk, hf⟩)
        · left; right; exact hk
        · subst hk; left; left; rfl
        · right; exact ⟨hk, hf⟩
    · simp only [if_true]
      constructor
      · rintro (hk | hk)
        · left; exact hk
        · right; exact ⟨Or.inr hk.1, hk.2⟩
      · rintro (hk | ⟨hk | hk, hf⟩)
        · left; exact hk
        · subst hk; rw [hp] at hf; cases hf
        · right; exact ⟨hk, hf⟩

/-! ## The claims -/

/-- Claim C1 (code_bug evidence): `add_relation` does **not** fail exactly
when the new edge would close a cycle.  On the diamond DAG
`0 → 1, 1 → 3, 2 → 3`, inserting `0 → 2` creates no cycle (the graph with the
edge added is still cycle-free by the independent reachability check
`hasCycle`), yet `add_relation 0 2` fails with the cycle error, because
`path_has_loop` reports a loop whenever breadth-first search revisits *any*
node — here the shared sink `3` — not only the start node. -/
theorem c1_add_relation_reports_cycle_on_acyclic_insert :
    add_relation diamondAdj 0 2 = Except.error () ∧
    hasCycle (insertEdge diamondAdj 0 2) = false ∧
    hasCycle diamondAdj = false := by decide

/-- Claim C2 (code_bug evidence): `wait_thread` is not atomic on the deadlock
rejection.  `netC2pre` is reached by two successful `wait_thread` calls that
commit the channel edges `0 → 2` and `2 → 1`; the call `wait_thread(1, 2,
false)` is rejected with the cycle error, and its rollback sweep
(`remove_channel_relation(2, ch)` for every channel of thread 1) also removes
the pre-existing edge `0 → 2`, so the edge set after the failed call differs
from the edge set before it. -/
theorem c2_deadlock_rollback_loses_preexisting_edge :
    (netThreeChans.wait_thread 2 2 false).isOk = true ∧
    ((netThreeChans.wait_thread 2 2 false).st.wait_thread 6 1 false).isOk = true ∧
    (netC2pre.wait_thread 1 2 false).isDeadlock = true ∧
    hasEdge netC2pre.wait_deps 0 2 = true ∧
    hasEdge ((netC2pre.wait_thread 1 2 false).st.wait_deps) 0 2 = false := by decide

/-- Claim C3 (code_bug evidence): the sweep of `wait_thread(t, c, false)`
does not attempt edges for exactly the fully locked channels of `t`.  In
`netTwoChans` (threads 1, 2; channels 0 and 1 both with participants
`{1, 2}`), thread 2 waits nowhere, so by the claim no channel of thread 1 is
fully locked — `fullyLocked` is `false` even in the wait map as it stands
when the sweep runs (after `add_waiter(0, 1)`), and both channels of thread 1
carry the same participant set `chanPair.participants`.  The claim therefore
demands that no edge be attempted and the call succeed; the code instead
compares the participant count with the *number of channels in the wait map*
(2 = 2), attempts the self edge `0 → 0`, and returns the cycle error. -/
theorem c3_edge_attempted_without_fully_locked_channel :
    (netTwoChans.wait_thread 1 0 false).isDeadlock = true ∧
    (mfind 1 netTwoChans.threads.map).map Thread.chans = some [0, 1] ∧
    (mfind 0 netTwoChans.channels = some chanPair ∧ mfind 1 netTwoChans.channels = some chanPair) ∧
    fullyLocked ((netTwoChans.wait_deps.add_waiter 0 1).1) chanPair = false := by decide

/-- Claim C4 (code_bug evidence): a successful `wait_thread(1, 0, false)` on
`netOneChan` records thread 1 as a waiter on channel 0 in the wait map, but
leaves the thread's state at `Sleep` — the source's `timer == false` branch
never assigns `WaitWithoutTimeout(c)` (or any state) to the thread. -/
theorem c4_wait_success_records_waiter_but_keeps_sleep_state :
    (netOneChan.wait_thread 1 0 false).isOk = true ∧
    smem 1 ((mfind 0 (netOneChan.wait_thread 1 0 false).st.wait_deps.chan).getD []) = true ∧
    (mfind 1 (netOneChan.wait_thread 1 0 false).st.threads.map).map Thread.state
      = some ThreadState.Sleep := by decide

/-- Claim C5 (counterexample): in `netC5` (thread 2 is `WaitWithTimeout(0)`),
`channel_signal(1, 0, false)` wakes thread 2, then executes the sender's own
wait, which is rejected with the cycle error — and the call **panics**
(`.unwrap()` on the `Err`) instead of propagating the error to the caller;
the woken thread 2 is `Active` in the state the panic leaves behind. -/
theorem c5_signal_panics_instead_of_propagating :
    (netTwoChans.wait_thread 2 0 true).isOk = true ∧
    (netC5.channel_signal 1 0 false).isPanic = true ∧
    (mfind 2 (SigRes.st (netC5.channel_signal 1 0 false)).threads.map).map Thread.state
      = some ThreadState.Active := by decide

/-- Claim C5 (amended): after the wakeups, the sender's own wait on the
channel is executed, and when that wait is rejected with the cycle error
`channel_signal` **panics** on the `unwrap` (it does not return the error);
the panic state is exactly the rejected-wait state, whose thread table — the
wakeups included — is the one the wakeup loop produced, so the wakeups are
not reverted. -/
theorem c5_signal_panic_on_cycle_rejection (net : Network) (sender ckey : Nat)
    (timer : Bool) (chan : Channel) (net' st : Network) (woken : List Nat)
    (hc : mfind ckey net.channels = some chan)
    (hp : smem sender chan.participants = true)
    (hw : wakeLoop net ckey chan.participants [] = Except.ok (net', woken))
    (hd : net'.wait_thread sender ckey timer = WtRes.deadlock st) :
    net.channel_signal sender ckey timer = SigRes.panicked st ∧
    st.threads = net'.threads := by
  constructor
  · unfold Network.channel_signal
    rw [hc]
    simp only [hp, if_true, hw, hd]
  · exact wait_thread_deadlock_threads hd

/-- Claim C5 witness: the amended theorem applied to the concrete network
`netC5`. -/
theorem c5_signal_panic_on_cycle_rejection_witness :
    netC5.channel_signal 1 0 false = SigRes.panicked netC5panic ∧
    netC5panic.threads = netC5wake.threads :=
  c5_signal_panic_on_cycle_rejection netC5 1 0 false chanPair netC5wake netC5panic [2]
    (by decide) (by decide) (by decide) (by decide)

/-- Claim C6 (counterexample): on `wmEdge` (channels 0, 1 registered, edge
`0 → 1` committed, channel 0 without waiters), `remove_channel 0` answers
`Some(true)` — but the graph node association of channel 0 and the edge
leaving its node survive untouched, refuting "also releases the graph node
and removes all graph edges incident on that node". -/
theorem c6_remove_channel_leaves_graph_node :
    (wmEdge.remove_channel 0).2 = some true ∧
    (wmEdge.remove_channel 0).1.chan_to_graph = wmEdge.chan_to_graph ∧
    (wmEdge.remove_channel 0).1.adj = wmEdge.adj ∧
    mfind 0 wmEdge.chan_to_graph = some 0 ∧
    smem 1 (succs wmEdge.adj 0) = true := by decide

/-- Claim C6 (amended): `remove_channel(c)` returns `None` when `c` is not
registered in the channel-waiter map, `Some(false)` leaving the map unchanged
when `c` still has waiters, and on `Some(true)` removes exactly the `chan`
entry of `c` — the thread index, the channel-to-node association, the
allocator and the whole graph are left untouched. -/
theorem c6_remove_channel_amended (wm : WaitMap) (key : Nat)
    (hs : keysSorted wm.chan) :
    (mfind key wm.chan = none → wm.remove_channel key = (wm, none)) ∧
    (∀ ws, mfind key wm.chan = some ws → ws ≠ [] → wm.remove_channel key = (wm, some false)) ∧
    (∀ ws, mfind key wm.chan = some ws → ws = [] →
      (wm.remove_channel key).2 = some true ∧
      (wm.remove_channel key).1.chan = merase key wm.chan ∧
      mfind key (wm.remove_channel key).1.chan = none ∧
      (wm.remove_channel key).1.thr = wm.thr ∧
      (wm.remove_channel key).1.chan_to_graph = wm.chan_to_graph ∧
      (wm.remove_channel key).1.next_id = wm.next_id ∧
      (wm.remove_channel key).1.adj = wm.adj) := by
  refine ⟨?_, ?_, ?_⟩
  · intro h
    unfold WaitMap.remove_channel
    rw [h]
  · intro ws h hne
    have hemp : ws.isEmpty = false := by
      cases ws
      · exact absurd rfl hne
      · rfl
    unfold WaitMap.remove_channel
    rw [h]
    simp [hemp]
  · intro ws h hemp
    subst hemp
    have hrc : wm.remove_channel key = ({ wm with chan := merase key wm.chan }, some true) := by
      unfold WaitMap.remove_channel
      rw [h]
      rfl
    rw [hrc]
    refine ⟨rfl, rfl, ?_, rfl, rfl, rfl, rfl⟩
    exact mfind_merase_self hs key

/-- Claim C6 witness: the amended theorem applied to `wmEdge` and channel 0
(the `Some(true)` branch). -/
theorem c6_remove_channel_amended_witness :
    (wmEdge.remove_channel 0).2 = some true ∧
    (wmEdge.remove_channel 0).1.chan = merase 0 wmEdge.chan ∧
    mfind 0 (wmEdge.remove_channel 0).1.chan = none ∧
    (wmEdge.remove_channel 0).1.thr = wmEdge.thr ∧
    (wmEdge.remove_channel 0).1.chan_to_graph = wmEdge.chan_to_graph ∧
    (wmEdge.remove_channel 0).1.next_id = wmEdge.next_id ∧
    (wmEdge.remove_channel 0).1.adj = wmEdge.adj :=
  (c6_remove_channel_amended wmEdge 0 (by decide)).2.2 [] (by decide) rfl

/-- Claim C7 (counterexample): on the empty wait map, `add_waiter(0, 1)`
registers the channel on the fly and returns without creating a thread-index
entry for thread 1, so the following `remove_waiter(0, 1)` panics on
`self.thr.get_mut(&waiter).unwrap()` — the round trip crashes rather than
restoring the original map. -/
theorem c7_add_remove_waiter_panics_on_unregistered :
    (WaitMap.new.add_waiter 0 1).1.remove_waiter 0 1 = none := by decide

/-- Claim C7 (amended): when the channel `c` **is** registered, `t` is not
already a waiter on `c`, and `t` has a thread-index entry that does not
contain `c`, then `add_waiter(c, t)` followed by `remove_waiter(c, t)`
returns `Some` (no panic) with exactly the original wait map. -/
theorem c7_add_remove_waiter_roundtrip (wm : WaitMap) (c t : Nat) (s ts : List Nat)
    (hcs : keysSorted wm.chan) (hts : keysSorted wm.thr)
    (hc : mfind c wm.chan = some s) (hnt : smem t s = false)
    (ht : mfind t wm.thr = some ts) (hnc : smem c ts = false) :
    (wm.add_waiter c t).2 = true ∧
    ((wm.add_waiter c t).1).remove_waiter c t = some (wm, true) := by
  obtain ⟨chan, thr, c2g, nid, adj⟩ := wm
  simp only at hc ht hcs hts
  have hcont : mcontains t thr = true := by
    unfold mcontains
    rw [ht]
    rfl
  have hadd : WaitMap.add_waiter ⟨chan, thr, c2g, nid, adj⟩ c t
      = (⟨minsert c (sinsert t s) chan, minsert t (sinsert c ts) thr, c2g, nid, adj⟩, true) := by
    unfold WaitMap.add_waiter
    rw [hc]
    simp only [hcont, if_true, ht]
    rfl
  refine ⟨by rw [hadd], ?_⟩
  rw [hadd]
  unfold WaitMap.remove_waiter
  simp only [mfind_minsert_self]
  rw [smem_sinsert_self]
  simp only [if_true]
  rw [serase_sinsert hnt, serase_sinsert hnc,
      minsert_minsert, minsert_minsert,
      minsert_of_mfind hcs hc, minsert_of_mfind hts ht]

/-- Claim C7 witness: the amended round trip applied to the reachable map
`wm7` with channel 1 and thread 2. -/
theorem c7_add_remove_waiter_roundtrip_witness :
    (wm7.add_waiter 1 2).2 = true ∧
    ((wm7.add_waiter 1 2).1).remove_waiter 1 2 = some (wm7, true) :=
  c7_add_remove_waiter_roundtrip wm7 1 2 [] [0]
    (by decide) (by decide) (by decide) (by decide) (by decide) (by decide)

/-- Claim C8: for every channel `c` whose graph node is registered and (as in
every state the API can reach, since `add_relation` never commits a self
edge) carries no self edge yet, `add_channel_relation(c, c)` is rejected with
the cycle error and the wait map — graph included — is returned unchanged. -/
theorem c8_self_relation_rejected (wm : WaitMap) (c n : Nat)
    (hreg : mfind c wm.chan_to_graph = some n)
    (hno : smem n (succs wm.adj n) = false) :
    wm.add_channel_relation c c = (wm, Except.error ()) := by
  have hsucc : succs (insertEdge wm.adj n n) n = sinsert n (succs wm.adj n) := by
    unfold insertEdge succs
    rw [mfind_minsert_self]
    rfl
  have hself : smem n (succs (insertEdge wm.adj n n) n) = true := by
    rw [hsucc]
    exact smem_sinsert_self n _
  have hloop : path_has_loop (insertEdge wm.adj n n) n = true :=
    bfsLoop_self_mem hself _ _ _ (List.mem_singleton.mpr rfl)
  have hadd : add_relation wm.adj n n = Except.error () := by
    unfold add_relation relation_exists
    simp [hno, hloop]
  unfold WaitMap.add_channel_relation
  simp only [hreg, hadd]

/-- Claim C8 witness: the rejection applied to the one-channel map `wm8`. -/
theorem c8_self_relation_rejected_witness :
    wm8.add_channel_relation 0 0 = (wm8, Except.error ()) :=
  c8_self_relation_rejected wm8 0 0 (by decide) (by decide)

/-- Claim C9: when every interface the process implements is present in the
interface set, `verify_implementations` returns `Some` (no panic): `Err`
carrying the list `missing` whose members are exactly the keys in the union
of the prerequisites of the implemented interfaces that the process does not
itself implement, and `Ok` exactly when that difference is empty.  The Rust
function borrows the process and the set immutably, so neither is modified —
the embedding is a pure function of both. -/
theorem c9_verify_implementations_missing (pr : Process) (iset : InterfaceSet)
    (h : ∀ i ∈ pr.implements, (ifind i iset).isSome = true) :
    ∃ missing : List InterfaceKey,
      pr.verify_implementations iset
        = some (if missing.isEmpty then Except.ok () else Except.error missing) ∧
      (∀ k, k ∈ missing ↔
        ((∃ i ∈ pr.implements, ∃ intf, ifind i iset = some intf ∧ k ∈ intf.prerequisites)
          ∧ k ∉ pr.implements)) ∧
      (pr.verify_implementations iset = some (Except.ok ()) ↔
        ∀ k, ¬ ((∃ i ∈ pr.implements, ∃ intf, ifind i iset = some intf ∧ k ∈ intf.prerequisites)
          ∧ k ∉ pr.implements)) := by
  obtain ⟨pre, hpre, hmem⟩ := collectPrereqs_spec iset pr.implements [] h
  have hver : pr.verify_implementations iset
      = some (if (missingOf pr.implements pre).isEmpty then Except.ok ()
              else Except.error (missingOf pr.implements pre)) := by
    unfold Process.verify_implementations
    rw [hpre]
  have hmiss : ∀ k, k ∈ missingOf pr.implements pre ↔
      ((∃ i ∈ pr.implements, ∃ intf, ifind i iset = some intf ∧ k ∈ intf.prerequisites)
        ∧ k ∉ pr.implements) := by
    intro k
    unfold missingOf
    rw [foldl_missing_mem, hmem k]
    simp only [List.not_mem_nil, false_or]
    constructor
    · rintro ⟨hk, hf⟩
      refine ⟨hk, ?_⟩
      intro hin
      rw [omem_iff.mpr hin] at hf
      cases hf
    · rintro ⟨hk, hn⟩
      refine ⟨hk, ?_⟩
      cases hf : omem k pr.implements
      · rfl
      · exact absurd (omem_iff.mp hf) hn
  refine ⟨missingOf pr.implements pre, hver, hmiss, ?_⟩
  rw [hver]
  cases hemp : (missingOf pr.implements pre).isEmpty
  · simp only [Bool.false_eq_true, if_false]
    constructor
    · intro hcontr
      injection hcontr with hcontr
      cases hcontr
    · intro hall
      exfalso
      have hne : missingOf pr.implements pre ≠ [] := by
        intro he
        rw [he] at hemp
        cases hemp
      obtain ⟨k, hk⟩ := List.exists_mem_of_ne_nil _ hne
      exact hall k ((hmiss k).mp hk)
  · simp only [if_true, true_iff]
    intro k hk
    have : k ∈ missingOf pr.implements pre := (hmiss k).mpr hk
    rw [List.isEmpty_iff] at hemp
    rw [hemp] at this
    cases this

/-- Claim C9 witness: the theorem applied to the scenario of the source test
`implementation_verification` — interface key `ik0` requires `{ik1, ik2}`,
the process implements `{ik0, ik1}`, and the conclusion instantiates to a
concrete `missing` containing `ik2`. -/
theorem c9_verify_implementations_missing_witness :
    ∃ missing : List InterfaceKey,
      proc9.verify_implementations iset9
        = some (if missing.isEmpty then Except.ok () else Except.error missing) ∧
      (∀ k, k ∈ missing ↔
        ((∃ i ∈ proc9.implements, ∃ intf, ifind i iset9 = some intf ∧ k ∈ intf.prerequisites)
          ∧ k ∉ proc9.implements)) ∧
      (proc9.verify_implementations iset9 = some (Except.ok ()) ↔
        ∀ k, ¬ ((∃ i ∈ proc9.implements, ∃ intf, ifind i iset9 = some intf ∧ k ∈ intf.prerequisites)
          ∧ k ∉ proc9.implements)) :=
  c9_verify_implementations_missing proc9 iset9 (by decide)

/-- Claim C10 (code_bug evidence): equality on `RcPath` does not agree with
its total ordering — on the one-node path `"a"`, `cmp` answers `Equal` but
`eq` answers `false` (the `eq` loop returns `false` as soon as both
iterators are exhausted, so no path is ever equal to any path, itself
included, contradicting reflexivity and the claimed agreement). -/
theorem c10_rustEq_disagrees_with_cmp :
    RcPath.rustEq pRoot pRoot = false ∧
    RcPath.cmp pRoot pRoot = Ordering.eq ∧
    RcPath.rustEq (RcPath.child pRoot "b") (RcPath.child pRoot "b") = false := by decide

end Kobzar
